import Mathlib

/-!
Shallow embedding of `NodeClassifier/utils/featurizer.py`.

Python strings are modelled as `List Char` (`PyStr`); Python exceptions are
modelled by `Option` (`none` = the call raises).  Python dictionaries
(`dict` / `collections.defaultdict`) preserve insertion order, so a session
dictionary is modelled as an insertion-ordered list of key/value pairs and a
`defaultdict(int)` counter as an insertion-ordered association list.
Numeric feature values produced by the final normalising divisions are
modelled as rationals (every value the claims mention is a small dyadic
rational, exactly representable in the floating point used by the source).
-/

set_option maxRecDepth 40000

abbrev PyStr := List Char

/-- A captured packet: `(timestamp, hex_header)`.  The timestamp is never
inspected by the embedded code, so its type is immaterial; `Int` is used. -/
abbrev Packet := Int × PyStr

/-- A session key: the pair `(key[0], key[1])` of `"address:port"` strings. -/
abbrev SessionKey := PyStr × PyStr

abbrev Session := List Packet

/-- A session dictionary, in insertion order. -/
abbrev SessionDict := List (SessionKey × Session)

/-- Python slice `s[a:b]` (for `0 ≤ a ≤ b`): total, truncates out of range. -/
def pySlice (a b : Nat) (s : PyStr) : PyStr := (s.drop a).take (b - a)

/-- Python `str.split(sep)` for a one-character separator: splits on every
occurrence, keeping empty pieces; the result is never the empty list. -/
def splitOnChar (sep : Char) : PyStr → List PyStr
  | [] => [[]]
  | c :: cs =>
    if c = sep then [] :: splitOnChar sep cs
    else
      match splitOnChar sep cs with
      | [] => [[c]]
      | g :: gs => (c :: g) :: gs

def splitDot : PyStr → List PyStr := splitOnChar '.'

def splitColon : PyStr → List PyStr := splitOnChar ':'

/-- The chunks `s[i:i+2]` for `i in range(0, len(s), 2)`. -/
def chunk2 : PyStr → List PyStr
  | [] => []
  | [c] => [[c]]
  | a :: b :: rest => [a, b] :: chunk2 rest

/-- `defaultdict(int)` update `d[k] += 1`: a key not yet present is appended
(insertion order), an existing key is incremented in place. -/
def bump (d : List (PyStr × Nat)) (k : PyStr) : List (PyStr × Nat) :=
  if d.any (fun p => p.1 = k) then
    d.map (fun p => if p.1 = k then (p.1, p.2 + 1) else p)
  else d ++ [(k, 1)]

/-! ### Python `int(s, base)` for bases 10 and 16

`int` strips surrounding whitespace, accepts an optional sign, for base 16 an
optional `0x`/`0X` (with at most one underscore after it), and then a
non-empty digit sequence in which single underscores may separate digits.
Only the ASCII fragment is modelled; the embedded source only ever feeds it
ASCII hex-dump slices and decimal port strings. -/

def isDig (c : Char) : Bool := 48 ≤ c.toNat && c.toNat ≤ 57

def isHexLetter (c : Char) : Bool :=
  (97 ≤ c.toNat && c.toNat ≤ 102) || (65 ≤ c.toNat && c.toNat ≤ 70)

def isDigB (base : Nat) (c : Char) : Bool :=
  isDig c || (base = 16 && isHexLetter c)

/-- Numeric value of a hex digit character. -/
def digVal (c : Char) : Nat :=
  if c.toNat ≤ 57 then c.toNat - 48
  else if c.toNat ≤ 70 then c.toNat - 55
  else c.toNat - 87

def isPySpace (c : Char) : Bool :=
  c = ' ' || c = '\t' || c = '\n' || c = '\r' || c.toNat = 11 || c.toNat = 12

def stripWs (l : PyStr) : PyStr :=
  ((l.dropWhile isPySpace).reverse.dropWhile isPySpace).reverse

/-- After a leading digit: digits, separated by at most single underscores. -/
def digitsTail (base : Nat) : PyStr → Bool
  | [] => true
  | c :: rest =>
    if c = '_' then
      match rest with
      | [] => false
      | d :: r2 => isDigB base d && digitsTail base r2
    else isDigB base c && digitsTail base rest

def digitsOk (base : Nat) : PyStr → Bool
  | [] => false
  | c :: rest => isDigB base c && digitsTail base rest

def digitsVal (base : Nat) (l : PyStr) : Nat :=
  (l.filter (fun c => c ≠ '_')).foldl (fun a c => a * base + digVal c) 0

/-- Optional sign character. -/
def pySign : PyStr → Int × PyStr
  | [] => (1, [])
  | c :: r => if c = '+' then (1, r) else if c = '-' then (-1, r) else (1, c :: r)

/-- Optional `0x` / `0X` (base-16 only), with at most one underscore after. -/
def strip0x : PyStr → PyStr
  | '0' :: c :: rest =>
    if c = 'x' ∨ c = 'X' then
      match rest with
      | '_' :: r3 => r3
      | _ => rest
    else '0' :: c :: rest
  | l => l

def pyIntCore (base : Nat) (sr : Int × PyStr) : Option Int :=
  let r := if base = 16 then strip0x sr.2 else sr.2
  if digitsOk base r then some (sr.1 * (digitsVal base r : Int)) else none

/-- Python `int(l, base)`; `none` models `ValueError`. -/
def pyInt (base : Nat) (l : PyStr) : Option Int :=
  pyIntCore base (pySign (stripWs l))

/-! ### The featurizer functions -/

/-- `extract_macs(packet)`: slices hex characters 12..24 (source) and 0..12
(destination) and joins consecutive pairs with `':'`. -/
def extract_macs (packet : PyStr) : PyStr × PyStr :=
  let source_mac := pySlice 12 24 packet
  let dest_mac := pySlice 0 12 packet
  (List.intercalate [':'] (chunk2 source_mac),
   List.intercalate [':'] (chunk2 dest_mac))

/-- The `pairs` value of `is_private`: the dot-split for strings longer than
4 characters, the characters themselves (each a 1-character string, as Python
string indexing yields) at length exactly 4, and unbound — a `NameError` on
first use, modelled `none` — otherwise. -/
def privPairs (address : PyStr) : Option (List PyStr) :=
  if 4 < address.length then some (splitDot address)
  else if address.length = 4 then some (address.map (fun c => [c]))
  else none

/-- The classification block of `is_private`, operating on `pairs`.
`pairs[i]` out of range is an `IndexError` and `int(pairs[1])` on a
non-numeric string a `ValueError`, both modelled `none`; the `and`s
short-circuit exactly as in Python. -/
def privClassify (pairs : List PyStr) : Option Bool := do
  let p0 ← pairs.get? 0
  let priv1 := decide (p0 = "10".data)
  let priv2 ←
    if p0 = "192".data then do
      let p1 ← pairs.get? 1
      pure (decide (p1 = "168".data))
    else pure false
  let priv3 ←
    if p0 = "172".data then do
      let p1 ← pairs.get? 1
      let v ← pyInt 10 p1
      pure (decide (16 ≤ v ∧ v ≤ 31))
    else pure false
  pure (priv1 || priv2 || priv3)

/-- `is_private(address)` for a string argument. -/
def is_private (address : PyStr) : Option Bool :=
  match privPairs address with
  | some pairs => privClassify pairs
  | none => none

/-- `is_external(address_1, address_2)`: compares the slices `[0:3]`. -/
def is_external (address_1 address_2 : PyStr) : Bool :=
  if pySlice 0 3 address_1 = pySlice 0 3 address_2 then true else false

/-- `extract_protocol(session)`: hex characters 46..48 of the first packet;
`none` models the `IndexError` on an empty session list. -/
def extract_protocol (session : Session) : Option PyStr :=
  match session with
  | [] => none
  | p :: _ => some (pySlice 46 48 p.2)

/-- `is_protocol(session, protocol)`. -/
def is_protocol (session : Session) (protocol : PyStr) : Option Bool :=
  (extract_protocol session).map (fun p => protocol = p)

/-- The value `packet_size` is applied to: either a `(timestamp, hex)` pair
(the shape stored in sessions) or a bare hex string. -/
inductive PacketInput where
  | pair : Int → PyStr → PacketInput
  | str : PyStr → PacketInput
deriving DecidableEq

/-- `packet_size(packet)`: takes `packet[1]`, slices hex characters 32..36
and parses base 16; the `try/except` turns a parse failure into 0, but the
subscript `packet[1]` is outside the `try` — on a bare string it indexes
character 1 and raises `IndexError` (`none`) when the string is shorter
than 2. -/
def packet_size : PacketInput → Option Int
  | .pair _ s =>
    some (match pyInt 16 (pySlice 32 36 s) with | some v => v | none => 0)
  | .str s =>
    match s.get? 1 with
    | none => none
    | some c =>
      some (match pyInt 16 (pySlice 32 36 [c]) with | some v => v | none => 0)

/-! ### `get_source` -/

/-- The value of the Python variable `capture_source` as it flows out of
`get_source` into `extract_features`: either a string, or the tuple
`(None, 0, 0)` that `get_source` returns for an empty session dictionary. -/
inductive PyVal where
  | str : PyStr → PyVal
  | tripleNone : PyVal
deriving DecidableEq

/-- Python `source_mac == capture_source`: a string never equals the
`(None, 0, 0)` tuple. -/
def macEq (s : PyStr) (v : PyVal) : Bool :=
  match v with
  | .str t => s = t
  | .tripleNone => false

/-- One iteration of the counting loop of `get_source`.  Only the `all_macs`
counter is tracked: the `all_ips`/`incoming_*`/`outgoing_*` counters are
also maintained by the source but do not affect the single value returned
(`return capture_source` drops `num_incoming`/`num_outgoing`).  Evaluation
order matches the source: addresses are split, then the first packet is
fetched (`IndexError` on an empty session), then `is_private` runs on the
incoming and — short-circuit — outgoing address. -/
def gsStep (counts : List (PyStr × Nat)) (e : SessionKey × Session) :
    Option (List (PyStr × Nat)) := do
  let incoming_address := (splitColon e.1.2).headD []
  let outgoing_address := (splitColon e.1.1).headD []
  let first_packet ← match e.2 with | [] => none | p :: _ => some p.2
  let m := extract_macs first_packet
  let ipriv ← is_private incoming_address
  if ipriv then do
    let opriv ← is_private outgoing_address
    if opriv then pure (bump (bump counts m.1) m.2)
    else pure counts
  else pure counts

/-- The `all_macs` counter after the loop of `get_source`. -/
def allMacs : SessionDict → List (PyStr × Nat) → Option (List (PyStr × Nat))
  | [], counts => some counts
  | e :: rest, counts => do
    let counts' ← gsStep counts e
    allMacs rest counts'

/-- Stable insertion for a descending sort by count: a later element is
placed after every earlier element of greater *or equal* count, exactly the
order Python's stable `sorted(..., reverse=True)` produces. -/
def insertDesc (x : PyStr × Nat) : List (PyStr × Nat) → List (PyStr × Nat)
  | [] => [x]
  | y :: ys => if y.2 ≤ x.2 then x :: y :: ys else y :: insertDesc x ys

/-- `sorted(all_macs.keys(), key=lambda k: all_macs[k], reverse=True)`,
keeping each key with its count. -/
def sortCountsDesc : List (PyStr × Nat) → List (PyStr × Nat)
  | [] => []
  | x :: xs => insertDesc x (sortCountsDesc xs)

/-- `get_source(sessions)`: counts MACs over private↔private sessions,
returns `(None, 0, 0)` when the dictionary is empty, else the head of the
stable descending sort (or the all-zero sentinel when no session was
private↔private). -/
def get_source (sessions : SessionDict) : Option PyVal := do
  let counts ← allMacs sessions []
  if sessions.length = 0 then pure PyVal.tripleNone
  else
    pure (PyVal.str
      (match sortCountsDesc counts with
       | [] => "00:00:00:00:00:00".data
       | s :: _ => s.1))

/-! ### `extract_features` -/

/-- The counters accumulated by the loop of `extract_features`. -/
structure Agg where
  num_source_sess : List Nat
  num_destination_sess : List Nat
  num_sessions : Nat
  num_external : Nat
  num_tcp_sess : Nat
  num_udp_sess : Nat
  num_icmp_sess : Nat
  other_ips : List (PyStr × Nat)
deriving DecidableEq

def initAgg (max_port : Nat) : Agg :=
  ⟨List.replicate max_port 0, List.replicate max_port 0, 0, 0, 0, 0, 0, []⟩

/-- Python list subscript: non-negative indices in range, negative indices
from the end; anything else is an `IndexError`. -/
def pyIndex (len : Nat) (i : Int) : Option Nat :=
  if 0 ≤ i ∧ i < (len : Int) then some i.toNat
  else if -(len : Int) ≤ i ∧ i < 0 then some (len - (-i).toNat)
  else none

/-- `l[i] += 1` on a Python list of counters. -/
def pyListIncr (l : List Nat) (i : Int) : Option (List Nat) :=
  (pyIndex l.length i).map (fun j => l.set j (l.getD j 0 + 1))

/-- Python tuple unpacking `a, p = parts` for exactly two parts
(`ValueError` otherwise). -/
def unpack2 (parts : List PyStr) : Option (PyStr × PyStr) :=
  match parts with
  | [a, p] => some (a, p)
  | _ => none

/-- The `if source_mac == capture_source:` block of the loop, in source
order: `other_ips` update (with its `is_private` call, which can raise),
session/external/protocol counters, then the two port-histogram updates
(`int(port)` is evaluated in each guard and can raise even when the port is
out of histogram range). -/
def featSrcBlock (max_port : Nat) (agg : Agg)
    (address_1 port_1 address_2 port_2 : PyStr) (session : Session) :
    Option Agg :=
  (is_private address_2).bind fun p2 =>
    let oips := if p2 then bump agg.other_ips address_2 else agg.other_ips
    let ns := agg.num_sessions + 1
    let ne := agg.num_external + (if is_external address_1 address_2 then 1 else 0)
    (is_protocol session "06".data).bind fun tcp =>
      (is_protocol session "11".data).bind fun udp =>
        (is_protocol session "01".data).bind fun icmp =>
          (pyInt 10 port_1).bind fun v1 =>
            (if v1 < (max_port : Int) then pyListIncr agg.num_source_sess v1
             else some agg.num_source_sess).bind fun src =>
              (pyInt 10 port_2).bind fun v2 =>
                (if v2 < (max_port : Int) then pyListIncr agg.num_destination_sess v2
                 else some agg.num_destination_sess).bind fun dst =>
                  some { num_source_sess := src
                         num_destination_sess := dst
                         num_sessions := ns
                         num_external := ne
                         num_tcp_sess := agg.num_tcp_sess + (if tcp then 1 else 0)
                         num_udp_sess := agg.num_udp_sess + (if udp then 1 else 0)
                         num_icmp_sess := agg.num_icmp_sess + (if icmp then 1 else 0)
                         other_ips := oips }

/-- The `if destination_mac == capture_source:` block. -/
def featDstBlock (agg : Agg) (address_1 : PyStr) : Option Agg :=
  (is_private address_1).bind fun p1 =>
    some (if p1 then { agg with other_ips := bump agg.other_ips address_1 } else agg)

/-- The hex of `session[0]`; `none` models the `IndexError` on an empty
session list. -/
def firstPacketHex : Session → Option PyStr
  | [] => none
  | p :: _ => some p.2

/-- One iteration of the loop of `extract_features`. -/
def featStep (capture_source : PyVal) (max_port : Nat) (agg : Agg)
    (e : SessionKey × Session) : Option Agg :=
  (unpack2 (splitColon e.1.1)).bind fun ap1 =>
    (unpack2 (splitColon e.1.2)).bind fun ap2 =>
      (firstPacketHex e.2).bind fun first_packet =>
        let m := extract_macs first_packet
        (if macEq m.1 capture_source then
           featSrcBlock max_port agg ap1.1 ap1.2 ap2.1 ap2.2 e.2
         else some agg).bind fun agg1 =>
          if macEq m.2 capture_source then featDstBlock agg1 ap1.1
          else some agg1

/-- The loop of `extract_features`. -/
def aggregate (capture_source : PyVal) (max_port : Nat) :
    SessionDict → Agg → Option Agg
  | [], agg => some agg
  | e :: rest, agg => do
    let agg' ← featStep capture_source max_port agg e
    aggregate capture_source max_port rest agg'

/-- The resolution of the `capture_source` argument: the caller-supplied
string, or the value `get_source` returns. -/
def resolveSource (session_dict : SessionDict) (capture_source : Option PyStr) :
    Option PyVal :=
  match capture_source with
  | some c => some (PyVal.str c)
  | none => get_source session_dict

/-- The tail of `extract_features` after the loop: the zero-session guard
(`num_sessions` of 0 becomes a divisor of 1), the normalizing divisions, the
concatenation of the two histograms with the four ratio features, and the
`other_ips` key list. -/
def normalizeAgg (cs : PyVal) (agg : Agg) : List ℚ × PyVal × List PyStr :=
  let n : Nat := if agg.num_sessions = 0 then 1 else agg.num_sessions
  (((agg.num_source_sess ++ agg.num_destination_sess).map
      (fun k : Nat => (k : ℚ) / (n : ℚ))) ++
    [(agg.num_external : ℚ) / (n : ℚ), (agg.num_tcp_sess : ℚ) / (n : ℚ),
     (agg.num_udp_sess : ℚ) / (n : ℚ), (agg.num_icmp_sess : ℚ) / (n : ℚ)],
   cs, agg.other_ips.map (fun p => p.1))

/-- `extract_features(session_dict, capture_source, max_port)`: resolves the
capture source, runs the loop, and normalizes the counters into the feature
vector. -/
def extract_features (session_dict : SessionDict)
    (capture_source : Option PyStr) (max_port : Nat) :
    Option (List ℚ × PyVal × List PyStr) := do
  let cs ← resolveSource session_dict capture_source
  let agg ← aggregate cs max_port session_dict (initAgg max_port)
  pure (normalizeAgg cs agg)

/-! ### Spec-side definitions

These follow the wording of the claims and are compared with the embedded
source functions; they are not translations of source code. -/

/-- Canonical decimal digits of a natural number, with explicit fuel so the
kernel can evaluate it. -/
def natToDecAux : Nat → Nat → List Char
  | 0, _ => []
  | f + 1, n =>
    if n < 10 then [Char.ofNat (48 + n)]
    else natToDecAux f (n / 10) ++ [Char.ofNat (48 + n % 10)]

def natToDec (n : Nat) : PyStr := natToDecAux (n + 1) n

/-- The well-formed dotted-quad string of four octet values. -/
def dottedQuad (a b c d : Nat) : PyStr :=
  natToDec a ++ '.' :: (natToDec b ++ '.' :: (natToDec c ++ '.' :: natToDec d))

/-- RFC1918 ground truth as the claim states it: 10.0.0.0/8, 172.16.0.0/12
(second octet 16–31), 192.168.0.0/16.  Only the first two octets matter. -/
def rfc1918 (a b : Nat) : Bool :=
  decide (a = 10) || (decide (a = 192) && decide (b = 168)) ||
    (decide (a = 172) && decide (16 ≤ b) && decide (b ≤ 31))

/-- The first entry of maximal count in an insertion-ordered counter list. -/
def firstMax? : List (PyStr × Nat) → Option (PyStr × Nat)
  | [] => none
  | x :: xs =>
    match firstMax? xs with
    | none => some x
    | some y => if y.2 ≤ x.2 then some x else some y

/-- A session entry that the `get_source` loop processes without raising:
a non-empty packet list, `is_private` defined on the incoming address and,
when that is true, on the outgoing address too. -/
def gsStepOk (e : SessionKey × Session) : Bool :=
  match e.2 with
  | [] => false
  | _ :: _ =>
    match is_private ((splitColon e.1.2).headD []) with
    | none => false
    | some true => (is_private ((splitColon e.1.1).headD [])).isSome
    | some false => true

/-- A session both of whose endpoint addresses are private. -/
def bothPrivate (e : SessionKey × Session) : Bool :=
  !e.2.isEmpty &&
  decide (is_private ((splitColon e.1.2).headD []) = some true) &&
  decide (is_private ((splitColon e.1.1).headD []) = some true)

/-- A session whose first-packet source MAC matches the capture source and
whose source port parses below `max_port` — exactly the sessions that
receive a source-port histogram bin. -/
def srcCounted (cs : PyVal) (mp : Nat) (e : SessionKey × Session) : Bool :=
  ((firstPacketHex e.2).map (fun fp => macEq (extract_macs fp).1 cs)).getD false &&
  ((unpack2 (splitColon e.1.1)).map (fun ap =>
      ((pyInt 10 ap.2).map (fun v => decide (v < (mp : Int)))).getD false)).getD false

/-! ### The concrete two-session scenario of the specification

One TCP session (protocol `'06'`) from source MAC `aa:aa:aa:aa:aa:aa` at
`192.168.1.5:80` to `192.168.1.10:4000` and one UDP session (`'11'`) from
the same MAC to `192.168.1.11:53`.  Hex layout: characters 0–11 destination
MAC, 12–23 source MAC, 46–47 protocol. -/

def c2pkt1 : PyStr := ("bbbbbbbbbbbbaaaaaaaaaaaa" ++ "000000000000000000000006").data

def c2pkt2 : PyStr := ("bbbbbbbbbbbbaaaaaaaaaaaa" ++ "000000000000000000000011").data

def c2sessions : SessionDict :=
  [(("192.168.1.5:80".data, "192.168.1.10:4000".data), [(0, c2pkt1)]),
   (("192.168.1.5:1055".data, "192.168.1.11:53".data), [(0, c2pkt2)])]

def c2mac : PyStr := "aa:aa:aa:aa:aa:aa".data

/-- The counters the loop produces on the scenario. -/
def c2agg : Agg :=
  { num_source_sess := (List.replicate 1024 0).set 80 1
    num_destination_sess := (List.replicate 1024 0).set 53 1
    num_sessions := 2
    num_external := 2
    num_tcp_sess := 1
    num_udp_sess := 1
    num_icmp_sess := 0
    other_ips := [("192.168.1.10".data, 1), ("192.168.1.11".data, 1)] }

/-- The feature vector the scenario produces. -/
def c2vec : List ℚ :=
  (c2agg.num_source_sess ++ c2agg.num_destination_sess).map
    (fun k : Nat => (k : ℚ) / 2) ++ [1, 1/2, 1/2, 0]

/-! ### Helper lemmas -/

theorem extract_features_eq_some {sd : SessionDict} {cso : Option PyStr}
    {mp : Nat} {cs : PyVal} {agg : Agg}
    (h1 : resolveSource sd cso = some cs)
    (h2 : aggregate cs mp sd (initAgg mp) = some agg) :
    extract_features sd cso mp = some (normalizeAgg cs agg) := by
  unfold extract_features
  rw [h1]
  show (aggregate cs mp sd (initAgg mp)).bind _ = _
  rw [h2]
  rfl

/-! ### Claim theorems, first batch -/

/-- C1: evaluation of `is_external` at concrete inputs.  The claim says
`is_external` returns true exactly when the first three characters of the two
address strings differ; the code does the opposite — it returns `False` for
`10.0.0.1` vs `192.168.0.1` (prefixes differ) and `True` for `192.168.1.5`
vs `192.168.1.10` (prefixes equal).  The function's name, and its use to
accumulate `num_external`, mark the inverted comparison as a code bug. -/
theorem is_external_inverted_eval :
    is_external "10.0.0.1".data "192.168.0.1".data = false ∧
    is_external "192.168.1.5".data "192.168.1.10".data = true := by
  decide

/-- C10: `is_external` is symmetric — for every pair of address strings,
`is_external a b = is_external b a`. -/
theorem is_external_symm (address_1 address_2 : PyStr) :
    is_external address_1 address_2 = is_external address_2 address_1 := by
  unfold is_external
  by_cases h : pySlice 0 3 address_1 = pySlice 0 3 address_2
  · simp [h]
  · have h' : ¬pySlice 0 3 address_2 = pySlice 0 3 address_1 := fun hh => h hh.symm
    simp [h, h']

/-- C9: `extract_features` is deterministic — two invocations on equal
session mappings with the same capture-source argument and `max_port`
produce identical results (the embedding is a pure function). -/
theorem extract_features_deterministic (sd1 sd2 : SessionDict)
    (cs : Option PyStr) (mp : Nat) (h : sd1 = sd2) :
    extract_features sd1 cs mp = extract_features sd2 cs mp := by rw [h]

theorem extract_features_deterministic_witness :
    extract_features c2sessions none 1024 = extract_features c2sessions none 1024 :=
  extract_features_deterministic c2sessions c2sessions none 1024 rfl

/-- C7 counterexample: on the bare 1-character hex string "a" the subscript
`packet[1]` raises `IndexError` (it sits outside the `try`), so
`packet_size` does not return 0 — refuting "never raises for any hex
string". -/
theorem packet_size_raises_short_str : packet_size (.str "a".data) = none := by
  decide

/-- C7 amended: `packet_size` never raises on `(timestamp, hex)` pairs,
returning the base-16 value of the `[32:36]` slice when it parses and 0
otherwise; on a bare string of length ≥ 2 it returns 0 (the slice of the
single character `packet[1]` is empty), and on a bare string of length < 2
it raises. -/
theorem packet_size_total_on_pairs :
    (∀ (t : Int) (s : PyStr),
      packet_size (.pair t s) = some ((pyInt 16 (pySlice 32 36 s)).getD 0)) ∧
    (∀ s : PyStr, 2 ≤ s.length → packet_size (.str s) = some 0) ∧
    (∀ s : PyStr, s.length < 2 → packet_size (.str s) = none) := by
  refine ⟨fun t s => ?_, fun s h => ?_, fun s h => ?_⟩
  · show some (match pyInt 16 (pySlice 32 36 s) with | some v => v | none => 0) =
      some ((pyInt 16 (pySlice 32 36 s)).getD 0)
    cases pyInt 16 (pySlice 32 36 s) <;> rfl
  · match s with
    | [] => simp at h
    | [a] => simp at h
    | a :: b :: rest => rfl
  · match s with
    | [] => rfl
    | [a] => rfl
    | a :: b :: rest => simp only [List.length_cons] at h; omega

theorem packet_size_total_on_pairs_witness :
    packet_size (.pair 0 c2pkt1) = some 0 ∧ packet_size (.str "ab".data) = some 0 :=
  ⟨(packet_size_total_on_pairs.1 0 c2pkt1).trans (by decide),
   packet_size_total_on_pairs.2.1 "ab".data (by decide)⟩

/-- C3 counterexample: on the empty session mapping, the capture source
returned by `extract_features` is the `(None, 0, 0)` tuple from
`get_source`'s empty-dictionary early return, not the sentinel string
`00:00:00:00:00:00` the claim asserts. -/
theorem empty_capture_source_not_sentinel :
    (extract_features [] none 1024).map (fun r => r.2.1) = some PyVal.tripleNone ∧
    PyVal.tripleNone ≠ PyVal.str "00:00:00:00:00:00".data := by
  refine ⟨rfl, ?_⟩
  intro h
  cases h

/-- C3 amended: on the empty session mapping, `extract_features` (with the
capture source unspecified) returns the all-zero vector of length
`2*max_port + 4`, the `(None, 0, 0)` tuple as capture source, and an empty
other-peers list. -/
theorem extract_features_empty (mp : Nat) :
    extract_features [] none mp =
      some (List.replicate (2 * mp + 4) (0 : ℚ), PyVal.tripleNone, []) := by
  have h : extract_features [] none mp = some (normalizeAgg PyVal.tripleNone (initAgg mp)) :=
    extract_features_eq_some rfl rfl
  rw [h]
  have hv : normalizeAgg PyVal.tripleNone (initAgg mp) =
      (List.replicate (2 * mp + 4) (0 : ℚ), PyVal.tripleNone, []) := by
    simp only [normalizeAgg, initAgg]
    norm_num
    rw [show 2 * mp + 4 = (mp + mp) + 4 by ring, List.replicate_add (mp + mp) 4]
    rfl
  rw [hv]

theorem get?_append_off {α : Type} (l1 l2 : List α) (n j : Nat) (h : l1.length = n) :
    (l1 ++ l2).get? (n + j) = l2.get? j := by
  subst h
  rw [List.get?_append_right (by omega)]
  congr 1
  omega

/-- C2: the spec's end-to-end scenario, evaluated.  `get_source` resolves to
`aa:aa:aa:aa:aa:aa`; the feature vector has source-port bin 80 = 1/2,
destination-port bin 53 = 1/2, TCP fraction 1/2, UDP fraction 1/2, ICMP
fraction 0; the destination port 4000 gets no bin (both histograms sum to 1
unnormalized) while its session still counts (`num_sessions = 2`).  The
external fraction however is 1, not the claimed 0.0: `is_external` returns
`True` for the matching `192` prefixes — the same inverted comparison as in
C1. -/
theorem c2_scenario :
    get_source c2sessions = some (PyVal.str c2mac) ∧
    aggregate (PyVal.str c2mac) 1024 c2sessions (initAgg 1024) = some c2agg ∧
    extract_features c2sessions none 1024 =
      some (c2vec, PyVal.str c2mac, ["192.168.1.10".data, "192.168.1.11".data]) ∧
    c2vec.get? 80 = some (1/2) ∧ c2vec.get? (1024 + 53) = some (1/2) ∧
    c2vec.get? 2048 = some 1 ∧ c2vec.get? 2049 = some (1/2) ∧
    c2vec.get? 2050 = some (1/2) ∧ c2vec.get? 2051 = some 0 ∧
    c2agg.num_sessions = 2 ∧ c2agg.num_source_sess.sum = 1 ∧
    c2agg.num_destination_sess.sum = 1 := by
  have hgs : get_source c2sessions = some (PyVal.str c2mac) := by rfl
  have hagg : aggregate (PyVal.str c2mac) 1024 c2sessions (initAgg 1024) = some c2agg := by
    rfl
  have hL : ((c2agg.num_source_sess ++ c2agg.num_destination_sess).map
      (fun k : Nat => (k : ℚ) / 2)).length = 2048 := by
    rw [List.length_map]; rfl
  have hget : ∀ i : Nat, i < 2048 →
      c2vec.get? i = ((c2agg.num_source_sess ++ c2agg.num_destination_sess).get? i).map
        (fun k : Nat => (k : ℚ) / 2) := by
    intro i hi
    unfold c2vec
    rw [List.get?_append (by rw [hL]; exact hi), List.get?_map]
  have hR : ∀ j : Nat, c2vec.get? (2048 + j) = [1, 1/2, 1/2, (0 : ℚ)].get? j :=
    fun j => get?_append_off _ _ 2048 j hL
  have hn : (if c2agg.num_sessions = 0 then 1 else c2agg.num_sessions) = 2 := rfl
  have hef : extract_features c2sessions none 1024 =
      some (c2vec, PyVal.str c2mac, ["192.168.1.10".data, "192.168.1.11".data]) := by
    rw [extract_features_eq_some
      (show resolveSource c2sessions none = some (PyVal.str c2mac) from hgs) hagg]
    simp only [normalizeAgg, hn, c2vec, show c2agg.num_external = 2 from rfl,
      show c2agg.num_tcp_sess = 1 from rfl, show c2agg.num_udp_sess = 1 from rfl,
      show c2agg.num_icmp_sess = 0 from rfl,
      show c2agg.other_ips.map (fun p => p.1) =
        ["192.168.1.10".data, "192.168.1.11".data] from rfl]
    norm_num
  have h80 : c2vec.get? 80 = some (1/2 : ℚ) := by
    rw [hget 80 (by omega), show (c2agg.num_source_sess ++
      c2agg.num_destination_sess).get? 80 = some 1 from rfl]
    norm_num
  have h1077 : c2vec.get? (1024 + 53) = some (1/2 : ℚ) := by
    rw [hget (1024 + 53) (by omega), show (c2agg.num_source_sess ++
      c2agg.num_destination_sess).get? (1024 + 53) = some 1 from rfl]
    norm_num
  have h2048 : c2vec.get? 2048 = some (1 : ℚ) := by
    rw [show (2048 : Nat) = 2048 + 0 from rfl, hR 0]
    rfl
  have h2049 : c2vec.get? 2049 = some (1/2 : ℚ) := by
    rw [show (2049 : Nat) = 2048 + 1 from rfl, hR 1]
    rfl
  have h2050 : c2vec.get? 2050 = some (1/2 : ℚ) := by
    rw [show (2050 : Nat) = 2048 + 2 from rfl, hR 2]
    rfl
  have h2051 : c2vec.get? 2051 = some (0 : ℚ) := by
    rw [show (2051 : Nat) = 2048 + 3 from rfl, hR 3]
    rfl
  exact ⟨hgs, hagg, hef, h80, h1077, h2048, h2049, h2050, h2051, rfl, by rfl, by rfl⟩

/-! ### Digit-string lemmas for C6 -/

theorem isDig_bounds {c : Char} (h : isDig c = true) : 48 ≤ c.toNat ∧ c.toNat ≤ 57 := by
  unfold isDig at h
  simp only [Bool.and_eq_true, decide_eq_true_eq] at h
  exact h

theorem char_ne_of_isDig {c x : Char} (h : isDig c = true)
    (hx : ¬(48 ≤ x.toNat ∧ x.toNat ≤ 57)) : c ≠ x := by
  intro he
  subst he
  exact hx (isDig_bounds h)

theorem isDig_not_space {c : Char} (h : isDig c = true) : isPySpace c = false := by
  have hb := isDig_bounds h
  unfold isPySpace
  simp only [Bool.or_eq_false_iff, decide_eq_false_iff_not]
  refine ⟨⟨⟨⟨⟨?_, ?_⟩, ?_⟩, ?_⟩, ?_⟩, ?_⟩ <;> intro he
  · subst he; exact absurd hb (by decide)
  · subst he; exact absurd hb (by decide)
  · subst he; exact absurd hb (by decide)
  · subst he; exact absurd hb (by decide)
  · omega
  · omega

theorem digChar_isDig {d : Nat} (h : d < 10) : isDig (Char.ofNat (48 + d)) = true := by
  interval_cases d <;> decide

theorem digChar_val {d : Nat} (h : d < 10) : digVal (Char.ofNat (48 + d)) = d := by
  interval_cases d <;> decide

theorem natToDecAux_digits {f n : Nat} (h : n < f) :
    ∀ c ∈ natToDecAux f n, isDig c = true := by
  induction f generalizing n with
  | zero => omega
  | succ f ih =>
    intro c hc
    unfold natToDecAux at hc
    by_cases h10 : n < 10
    · rw [if_pos h10] at hc
      simp only [List.mem_singleton] at hc
      subst hc
      exact digChar_isDig h10
    · rw [if_neg h10] at hc
      simp only [List.mem_append, List.mem_singleton] at hc
      have hd : n / 10 < n := Nat.div_lt_self (by omega) (by omega)
      rcases hc with hc | hc
      · exact ih (by omega) c hc
      · subst hc
        exact digChar_isDig (Nat.mod_lt _ (by omega))

theorem natToDec_digits (n : Nat) : ∀ c ∈ natToDec n, isDig c = true :=
  natToDecAux_digits (Nat.lt_succ_self n)

theorem natToDec_ne_nil (n : Nat) : natToDec n ≠ [] := by
  unfold natToDec natToDecAux
  by_cases h10 : n < 10
  · rw [if_pos h10]; simp
  · rw [if_neg h10]; simp

theorem rawVal_natToDecAux {f n : Nat} (h : n < f) :
    (natToDecAux f n).foldl (fun a c => a * 10 + digVal c) 0 = n := by
  induction f generalizing n with
  | zero => omega
  | succ f ih =>
    unfold natToDecAux
    by_cases h10 : n < 10
    · rw [if_pos h10]
      simp only [List.foldl_cons, List.foldl_nil]
      rw [digChar_val h10]
      omega
    · rw [if_neg h10]
      rw [List.foldl_append]
      have hd : n / 10 < n := Nat.div_lt_self (by omega) (by omega)
      rw [ih (by omega)]
      simp only [List.foldl_cons, List.foldl_nil]
      rw [digChar_val (Nat.mod_lt _ (by omega))]
      omega

theorem rawVal_natToDec (n : Nat) :
    (natToDec n).foldl (fun a c => a * 10 + digVal c) 0 = n :=
  rawVal_natToDecAux (Nat.lt_succ_self n)

theorem natToDec_inj {m n : Nat} (h : natToDec m = natToDec n) : m = n := by
  have hm := rawVal_natToDec m
  rw [h, rawVal_natToDec n] at hm
  omega

theorem dropWhile_all_false {p : Char → Bool} {l : List Char}
    (h : ∀ c ∈ l, p c = false) : l.dropWhile p = l := by
  cases l with
  | nil => rfl
  | cons c cs =>
    rw [List.dropWhile_cons, if_neg]
    rw [h c (List.mem_cons_self c cs)]
    simp

theorem stripWs_digits {l : PyStr} (h : ∀ c ∈ l, isDig c = true) :
    stripWs l = l := by
  unfold stripWs
  rw [dropWhile_all_false (fun c hc => isDig_not_space (h c hc)),
      dropWhile_all_false (fun c hc => isDig_not_space (h c (List.mem_reverse.mp hc))),
      List.reverse_reverse]

theorem isDigB_of_isDig {base : Nat} {c : Char} (h : isDig c = true) :
    isDigB base c = true := by
  unfold isDigB
  rw [h]
  rfl

theorem digitsTail_digits {l : PyStr} (h : ∀ c ∈ l, isDig c = true) :
    digitsTail 10 l = true := by
  induction l with
  | nil => rfl
  | cons c cs ih =>
    unfold digitsTail
    rw [if_neg (char_ne_of_isDig (h c (List.mem_cons_self c cs)) (by decide))]
    rw [isDigB_of_isDig (h c (List.mem_cons_self c cs)),
        ih (fun x hx => h x (List.mem_cons_of_mem c hx))]
    rfl

theorem digitsOk_digits {l : PyStr} (hne : l ≠ []) (h : ∀ c ∈ l, isDig c = true) :
    digitsOk 10 l = true := by
  cases l with
  | nil => exact absurd rfl hne
  | cons c cs =>
    show (isDigB 10 c && digitsTail 10 cs) = true
    rw [isDigB_of_isDig (h c (List.mem_cons_self c cs)),
        digitsTail_digits (fun x hx => h x (List.mem_cons_of_mem c hx))]
    rfl

theorem filter_digits {l : PyStr} (h : ∀ c ∈ l, isDig c = true) :
    l.filter (fun c => c ≠ '_') = l := by
  rw [List.filter_eq_self]
  intro a ha
  simpa using char_ne_of_isDig (h a ha) (by decide)

theorem digitsVal_natToDec (n : Nat) : digitsVal 10 (natToDec n) = n := by
  unfold digitsVal
  rw [filter_digits (natToDec_digits n)]
  exact rawVal_natToDec n

theorem pySign_digits {l : PyStr} (hne : l ≠ []) (h : ∀ c ∈ l, isDig c = true) :
    pySign l = (1, l) := by
  cases l with
  | nil => exact absurd rfl hne
  | cons c cs =>
    show (if c = '+' then ((1 : Int), cs) else if c = '-' then (-1, cs) else (1, c :: cs)) =
      (1, c :: cs)
    rw [if_neg (char_ne_of_isDig (h c (List.mem_cons_self c cs)) (by decide)),
        if_neg (char_ne_of_isDig (h c (List.mem_cons_self c cs)) (by decide))]

theorem pyInt_natToDec (n : Nat) : pyInt 10 (natToDec n) = some (n : Int) := by
  have hd := natToDec_digits n
  have hne := natToDec_ne_nil n
  unfold pyInt
  rw [stripWs_digits hd, pySign_digits hne hd]
  show (if digitsOk 10 (natToDec n) = true
      then some ((1 : Int) * (digitsVal 10 (natToDec n) : Int)) else none) = some (n : Int)
  rw [digitsOk_digits hne hd]
  simp [digitsVal_natToDec]

theorem splitOnChar_cons (sep c : Char) (cs : PyStr) :
    splitOnChar sep (c :: cs) =
      (if c = sep then [] :: splitOnChar sep cs
       else
         match splitOnChar sep cs with
         | [] => [[c]]
         | g :: gs => (c :: g) :: gs) := rfl

theorem splitOnChar_no_sep {sep : Char} {l : PyStr} (h : ∀ c ∈ l, c ≠ sep) :
    splitOnChar sep l = [l] := by
  induction l with
  | nil => rfl
  | cons c cs ih =>
    rw [splitOnChar_cons, if_neg (h c (List.mem_cons_self c cs)),
        ih (fun x hx => h x (List.mem_cons_of_mem c hx))]

theorem splitOnChar_append {sep : Char} {l1 : PyStr} (l2 : PyStr)
    (h : ∀ c ∈ l1, c ≠ sep) :
    splitOnChar sep (l1 ++ sep :: l2) = l1 :: splitOnChar sep l2 := by
  induction l1 with
  | nil =>
    rw [List.nil_append, splitOnChar_cons, if_pos rfl]
  | cons c cs ih =>
    rw [List.cons_append, splitOnChar_cons, if_neg (h c (List.mem_cons_self c cs)),
        ih (fun x hx => h x (List.mem_cons_of_mem c hx))]

theorem natToDec_no_dot (n : Nat) : ∀ c ∈ natToDec n, c ≠ '.' :=
  fun c hc => char_ne_of_isDig (natToDec_digits n c hc) (by decide)

theorem splitDot_dottedQuad (a b c d : Nat) :
    splitDot (dottedQuad a b c d) =
      [natToDec a, natToDec b, natToDec c, natToDec d] := by
  unfold dottedQuad splitDot
  rw [splitOnChar_append _ (natToDec_no_dot a), splitOnChar_append _ (natToDec_no_dot b),
      splitOnChar_append _ (natToDec_no_dot c), splitOnChar_no_sep (natToDec_no_dot d)]

theorem dottedQuad_len (a b c d : Nat) : 4 < (dottedQuad a b c d).length := by
  unfold dottedQuad
  have h1 : 0 < (natToDec a).length := List.length_pos.mpr (natToDec_ne_nil a)
  have h2 : 0 < (natToDec b).length := List.length_pos.mpr (natToDec_ne_nil b)
  have h3 : 0 < (natToDec c).length := List.length_pos.mpr (natToDec_ne_nil c)
  have h4 : 0 < (natToDec d).length := List.length_pos.mpr (natToDec_ne_nil d)
  simp only [List.length_append, List.length_cons]
  omega

theorem privClassify_quad_eq (p0 p1 p2 p3 : PyStr) :
    privClassify [p0, p1, p2, p3] =
      (if p0 = "192".data then
         (if p0 = "172".data then
            (pyInt 10 p1).bind fun v =>
              some (decide (p0 = "10".data) || decide (p1 = "168".data) ||
                decide (16 ≤ v ∧ v ≤ 31))
          else some (decide (p0 = "10".data) || decide (p1 = "168".data) || false))
       else
         (if p0 = "172".data then
            (pyInt 10 p1).bind fun v =>
              some (decide (p0 = "10".data) || false || decide (16 ≤ v ∧ v ≤ 31))
          else some (decide (p0 = "10".data) || false || false))) := rfl

/-- C6: for every well-formed dotted-quad address (octet values ≤ 255 in
canonical decimal), `is_private` returns `some` of exactly the RFC1918
ground truth on the first two octets: 10.0.0.0/8, 172.16.0.0/12 (second
octet 16–31) and 192.168.0.0/16. -/
theorem is_private_rfc1918 (a b c d : Nat) (ha : a ≤ 255) (hb : b ≤ 255)
    (hc : c ≤ 255) (hd : d ≤ 255) :
    is_private (dottedQuad a b c d) = some (rfc1918 a b) := by
  have hq : privPairs (dottedQuad a b c d) =
      some [natToDec a, natToDec b, natToDec c, natToDec d] := by
    unfold privPairs
    rw [if_pos (dottedQuad_len a b c d), splitDot_dottedQuad]
  unfold is_private
  rw [hq]
  show privClassify [natToDec a, natToDec b, natToDec c, natToDec d] = some (rfc1918 a b)
  by_cases h192 : a = 192
  · subst h192
    by_cases hb168 : b = 168
    · subst hb168
      rfl
    · show some (decide (natToDec b = "168".data) || false) = some (rfc1918 192 b)
      rw [decide_eq_false fun h : natToDec b = "168".data =>
          hb168 (natToDec_inj (h.trans (by decide)))]
      unfold rfc1918
      rw [decide_eq_false hb168]
      rfl
  · by_cases h172 : a = 172
    · subst h172
      show (pyInt 10 (natToDec b)).bind (fun v =>
          some ((decide (natToDec 172 = "10".data) || false) ||
            decide (16 ≤ v ∧ v ≤ 31))) = some (rfc1918 172 b)
      rw [pyInt_natToDec b]
      show some ((decide (natToDec 172 = "10".data) || false) ||
          decide (16 ≤ (b : Int) ∧ (b : Int) ≤ 31)) = some (rfc1918 172 b)
      have h1 : decide (16 ≤ (b : Int) ∧ (b : Int) ≤ 31) =
          (decide (16 ≤ b) && decide (b ≤ 31)) := by
        have e1 : (16 ≤ (b : Int) ∧ (b : Int) ≤ 31) ↔ (16 ≤ b ∧ b ≤ 31) := by omega
        rw [decide_eq_decide.mpr e1, Bool.decide_and]
      rw [h1]
      rfl
    · by_cases h10 : a = 10
      · subst h10
        rfl
      · have hc192 : natToDec a ≠ "192".data :=
          fun h => h192 (natToDec_inj (h.trans (by decide)))
        have hc172 : natToDec a ≠ "172".data :=
          fun h => h172 (natToDec_inj (h.trans (by decide)))
        have hc10 : natToDec a ≠ "10".data :=
          fun h => h10 (natToDec_inj (h.trans (by decide)))
        rw [privClassify_quad_eq, if_neg hc192, if_neg hc172, decide_eq_false hc10]
        unfold rfc1918
        rw [decide_eq_false h10, decide_eq_false h192, decide_eq_false h172]
        rfl

theorem is_private_rfc1918_witness :
    is_private (dottedQuad 172 16 0 1) = some (rfc1918 172 16) ∧ rfc1918 172 16 = true ∧
    is_private (dottedQuad 8 8 8 8) = some (rfc1918 8 8) ∧ rfc1918 8 8 = false ∧
    is_private (dottedQuad 172 15 0 1) = some (rfc1918 172 15) ∧ rfc1918 172 15 = false :=
  ⟨is_private_rfc1918 172 16 0 1 (by decide) (by decide) (by decide) (by decide), by decide,
   is_private_rfc1918 8 8 8 8 (by decide) (by decide) (by decide) (by decide), by decide,
   is_private_rfc1918 172 15 0 1 (by decide) (by decide) (by decide) (by decide), by decide⟩

/-- C8: `is_private` raises (returns `none` from the unbound `pairs`,
Python's `NameError`) on every string of length 1 to 3, while every string
of length ≥ 4 reaches the classification block (`privClassify`) with a
defined `pairs` value. -/
theorem is_private_short_raises :
    (∀ s : PyStr, 1 ≤ s.length → s.length ≤ 3 → is_private s = none) ∧
    (∀ s : PyStr, 4 ≤ s.length →
      ∃ ps, privPairs s = some ps ∧ is_private s = privClassify ps) := by
  constructor
  · intro s h1 h3
    unfold is_private privPairs
    rw [if_neg (by omega), if_neg (by omega)]
  · intro s h4
    have hps : privPairs s =
        some (if 4 < s.length then splitDot s else s.map (fun c => [c])) := by
      unfold privPairs
      by_cases h : 4 < s.length
      · rw [if_pos h, if_pos h]
      · rw [if_neg h, if_pos (by omega), if_neg h]
    refine ⟨_, hps, ?_⟩
    unfold is_private
    rw [hps]

theorem is_private_short_raises_witness :
    is_private "ab".data = none ∧
    (∃ ps, privPairs "192.168.0.1".data = some ps ∧
      is_private "192.168.0.1".data = privClassify ps) ∧
    1 ≤ "ab".data.length ∧ "ab".data.length ≤ 3 ∧ 4 ≤ "192.168.0.1".data.length :=
  ⟨is_private_short_raises.1 "ab".data (by decide) (by decide),
   is_private_short_raises.2 "192.168.0.1".data (by decide),
   by decide, by decide, by decide⟩

/-! ### Lemmas for C4 -/

theorem bump_ne_nil (d : List (PyStr × Nat)) (k : PyStr) : bump d k ≠ [] := by
  unfold bump
  by_cases h : d.any (fun p => p.1 = k)
  · rw [if_pos h]
    cases d with
    | nil => simp at h
    | cons a as => simp
  · rw [if_neg h]
    simp

theorem sortCountsDesc_eq_nil_iff (l : List (PyStr × Nat)) :
    sortCountsDesc l = [] ↔ l = [] := by
  cases l with
  | nil => simp [sortCountsDesc]
  | cons x xs =>
    simp only [sortCountsDesc]
    constructor
    · intro h
      exfalso
      cases hs : sortCountsDesc xs with
      | nil => rw [hs] at h; cases h
      | cons y ys =>
        rw [hs] at h
        unfold insertDesc at h
        by_cases hc : y.2 ≤ x.2
        · rw [if_pos hc] at h; cases h
        · rw [if_neg hc] at h; cases h
    · intro h; cases h

theorem firstMax?_eq_none_iff (l : List (PyStr × Nat)) :
    firstMax? l = none ↔ l = [] := by
  cases l with
  | nil => simp [firstMax?]
  | cons x xs =>
    simp only [firstMax?]
    constructor
    · intro h
      cases hx : firstMax? xs with
      | none => rw [hx] at h; cases h
      | some y =>
        rw [hx] at h
        have h2 : (if y.2 ≤ x.2 then some x else some y) = none := h
        by_cases hc : y.2 ≤ x.2
        · rw [if_pos hc] at h2; cases h2
        · rw [if_neg hc] at h2; cases h2
    · intro h; cases h

theorem head?_sortCountsDesc (l : List (PyStr × Nat)) :
    (sortCountsDesc l).head? = firstMax? l := by
  induction l with
  | nil => rfl
  | cons x xs ih =>
    show (insertDesc x (sortCountsDesc xs)).head? = _
    cases hs : sortCountsDesc xs with
    | nil =>
      have hxs : xs = [] := (sortCountsDesc_eq_nil_iff xs).mp hs
      subst hxs
      rfl
    | cons y ys =>
      have hy : firstMax? xs = some y := by
        rw [← ih, hs]
        rfl
      unfold insertDesc firstMax?
      rw [hy]
      show (if y.2 ≤ x.2 then x :: y :: ys else y :: insertDesc x ys).head? =
        (if y.2 ≤ x.2 then some x else some y)
      by_cases hc : y.2 ≤ x.2
      · rw [if_pos hc, if_pos hc]
        rfl
      · rw [if_neg hc, if_neg hc]
        rfl

theorem firstMax?_spec (l : List (PyStr × Nat)) :
    ∀ m, firstMax? l = some m →
      ∃ l1 l2, l = l1 ++ m :: l2 ∧ (∀ p ∈ l1, p.2 < m.2) ∧ (∀ p ∈ l2, p.2 ≤ m.2) := by
  induction l with
  | nil => intro m h; cases h
  | cons x xs ih =>
    intro m h
    unfold firstMax? at h
    cases hx : firstMax? xs with
    | none =>
      rw [hx] at h
      have h2 : some x = some m := h
      have hxs : xs = [] := (firstMax?_eq_none_iff xs).mp hx
      subst hxs
      injection h2 with h'
      subst h'
      exact ⟨[], [], rfl, by simp, by simp⟩
    | some y =>
      rw [hx] at h
      have h2 : (if y.2 ≤ x.2 then some x else some y) = some m := h
      obtain ⟨l1, l2, heq, hlt, hle⟩ := ih y hx
      by_cases hc : y.2 ≤ x.2
      · rw [if_pos hc] at h2
        injection h2 with h'
        subst h'
        refine ⟨[], xs, rfl, by simp, ?_⟩
        intro p hp
        rw [heq] at hp
        rcases List.mem_append.mp hp with hp1 | hp2
        · exact le_trans (le_of_lt (hlt p hp1)) hc
        · rcases List.mem_cons.mp hp2 with rfl | hp3
          · exact hc
          · exact le_trans (hle p hp3) hc
      · rw [if_neg hc] at h2
        injection h2 with h'
        subst h'
        refine ⟨x :: l1, l2, by rw [heq, List.cons_append], ?_, hle⟩
        intro p hp
        rcases List.mem_cons.mp hp with rfl | hp1
        · omega
        · exact hlt p hp1

theorem gsStep_cons (counts : List (PyStr × Nat)) (k : SessionKey) (p : Packet)
    (rest : List Packet) :
    gsStep counts (k, p :: rest) =
      ((is_private ((splitColon k.2).headD [])).bind fun ipriv =>
        if ipriv = true then
          (is_private ((splitColon k.1).headD [])).bind fun opriv =>
            if opriv = true then
              some (bump (bump counts (extract_macs p.2).1) (extract_macs p.2).2)
            else some counts
        else some counts) := rfl

theorem gsStepOk_cons (k : SessionKey) (p : Packet) (rest : List Packet) :
    gsStepOk (k, p :: rest) =
      (match is_private ((splitColon k.2).headD []) with
       | none => false
       | some true => (is_private ((splitColon k.1).headD [])).isSome
       | some false => true) := rfl

theorem bothPrivate_cons (k : SessionKey) (p : Packet) (rest : List Packet) :
    bothPrivate (k, p :: rest) =
      (decide (is_private ((splitColon k.2).headD []) = some true) &&
       decide (is_private ((splitColon k.1).headD []) = some true)) := rfl

theorem gsStep_ok {e : SessionKey × Session} (h : gsStepOk e = true)
    (counts : List (PyStr × Nat)) :
    ∃ counts', gsStep counts e = some counts' ∧
      (counts ≠ [] → counts' ≠ []) ∧ (bothPrivate e = true → counts' ≠ []) := by
  obtain ⟨k, sess⟩ := e
  cases sess with
  | nil => exact absurd (show false = true from h) (by simp)
  | cons p rest =>
    rw [gsStepOk_cons] at h
    rw [gsStep_cons, bothPrivate_cons]
    cases hip : is_private ((splitColon k.2).headD []) with
    | none =>
      rw [hip] at h
      exact absurd (show false = true from h) (by simp)
    | some b =>
      rw [hip] at h
      rw [Option.some_bind]
      cases b with
      | false =>
        refine ⟨counts, by rw [if_neg (by simp)], fun hh => hh, fun hbp => ?_⟩
        simp at hbp
      | true =>
        have hs : (is_private ((splitColon k.1).headD [])).isSome = true := h
        rw [if_pos rfl]
        cases hop : is_private ((splitColon k.1).headD []) with
        | none =>
          rw [hop] at hs
          exact absurd (show false = true from hs) (by simp)
        | some ob =>
          rw [Option.some_bind]
          cases ob with
          | false =>
            refine ⟨counts, by rw [if_neg (by simp)], fun hh => hh, fun hbp => ?_⟩
            simp at hbp
          | true =>
            exact ⟨bump (bump counts (extract_macs p.2).1) (extract_macs p.2).2,
              by rw [if_pos rfl], fun _ => bump_ne_nil _ _, fun _ => bump_ne_nil _ _⟩

theorem allMacs_ok {sd : SessionDict} (hok : ∀ e ∈ sd, gsStepOk e = true) :
    ∀ counts, ∃ counts', allMacs sd counts = some counts' ∧
      (counts ≠ [] → counts' ≠ []) ∧
      ((∃ e ∈ sd, bothPrivate e = true) → counts' ≠ []) := by
  induction sd with
  | nil =>
    intro counts
    exact ⟨counts, rfl, fun hh => hh, fun ⟨e, he, _⟩ => absurd he (List.not_mem_nil e)⟩
  | cons e rest ih =>
    intro counts
    obtain ⟨c1, hc1, hpre1, hbp1⟩ := gsStep_ok (hok e (List.mem_cons_self e rest)) counts
    obtain ⟨c2, hc2, hpre2, hbp2⟩ := ih (fun x hx => hok x (List.mem_cons_of_mem e hx)) c1
    refine ⟨c2, ?_, fun hne => hpre2 (hpre1 hne), ?_⟩
    · show (gsStep counts e).bind (fun c => allMacs rest c) = some c2
      rw [hc1, Option.some_bind]
      exact hc2
    · rintro ⟨x, hx, hbx⟩
      rcases List.mem_cons.mp hx with rfl | hx2
      · exact hpre2 (hbp1 hbx)
      · exact hbp2 ⟨x, hx2, hbx⟩

/-- C4: for every session mapping whose entries the `get_source` loop can
process and which contains at least one session with both endpoint
addresses private, `get_source` returns the MAC whose total occurrence
count in the `all_macs` counter is maximal, and among maximal entries the
one earliest in insertion order (the stable descending sort's head):
the counter list splits as `l1 ++ m :: l2` with every entry before `m`
strictly smaller and every entry after it no larger. -/
theorem get_source_first_max (sd : SessionDict)
    (hok : ∀ e ∈ sd, gsStepOk e = true)
    (hpp : ∃ e ∈ sd, bothPrivate e = true) :
    ∃ counts m l1 l2,
      allMacs sd [] = some counts ∧
      counts = l1 ++ m :: l2 ∧
      (∀ p ∈ l1, p.2 < m.2) ∧ (∀ p ∈ l2, p.2 ≤ m.2) ∧
      get_source sd = some (PyVal.str m.1) := by
  obtain ⟨counts, hc, _, hbp⟩ := allMacs_ok hok []
  have hcne := hbp hpp
  cases hm : firstMax? counts with
  | none => exact absurd ((firstMax?_eq_none_iff counts).mp hm) hcne
  | some m =>
    obtain ⟨l1, l2, heq, hlt, hle⟩ := firstMax?_spec counts m hm
    refine ⟨counts, m, l1, l2, hc, heq, hlt, hle, ?_⟩
    have hsd : sd ≠ [] := by
      rintro rfl
      obtain ⟨e, he, _⟩ := hpp
      exact List.not_mem_nil e he
    show (allMacs sd []).bind _ = some (PyVal.str m.1)
    rw [hc, Option.some_bind]
    rw [if_neg (fun hz => hsd (List.length_eq_zero.mp hz))]
    have hhead : (sortCountsDesc counts).head? = some m := by
      rw [head?_sortCountsDesc, hm]
    cases hs : sortCountsDesc counts with
    | nil => rw [hs] at hhead; cases hhead
    | cons s ss =>
      rw [hs] at hhead
      injection hhead with hh
      show some (PyVal.str s.1) = some (PyVal.str m.1)
      rw [hh]

theorem get_source_first_max_witness :
    ∃ counts m l1 l2,
      allMacs c2sessions [] = some counts ∧
      counts = l1 ++ m :: l2 ∧
      (∀ p ∈ l1, p.2 < m.2) ∧ (∀ p ∈ l2, p.2 ≤ m.2) ∧
      get_source c2sessions = some (PyVal.str m.1) :=
  get_source_first_max c2sessions (by decide) (by decide)

/-! ### Lemmas for C5 -/

theorem firstPacketHex_cons (p : Packet) (rest : List Packet) :
    firstPacketHex (p :: rest) = some p.2 := rfl

theorem sum_set_incr (l : List Nat) (j : Nat) (h : j < l.length) :
    (l.set j (l.getD j 0 + 1)).sum = l.sum + 1 := by
  induction l generalizing j with
  | nil => simp at h
  | cons x xs ih =>
    cases j with
    | zero => simp [List.sum_cons]; omega
    | succ n =>
      simp only [List.set, List.getD_cons_succ, List.sum_cons]
      rw [ih n (by simpa using h)]
      omega

theorem pyIndex_lt {len : Nat} {i : Int} {j : Nat} (h : pyIndex len i = some j) :
    j < len := by
  unfold pyIndex at h
  split at h
  · injection h with h2
    omega
  · split at h
    · injection h with h2
      omega
    · cases h

theorem pyListIncr_sum {l : List Nat} {i : Int} {l2 : List Nat}
    (h : pyListIncr l i = some l2) : l2.sum = l.sum + 1 := by
  unfold pyListIncr at h
  cases hj : pyIndex l.length i with
  | none => rw [hj] at h; cases h
  | some j =>
    rw [hj] at h
    injection h with h2
    rw [← h2]
    exact sum_set_incr l j (pyIndex_lt hj)

theorem featSrcBlock_eq (mp : Nat) (agg : Agg) (a1 p1 a2 p2 : PyStr) (s : Session) :
    featSrcBlock mp agg a1 p1 a2 p2 s =
      (is_private a2).bind fun p2v =>
        (is_protocol s "06".data).bind fun tcp =>
          (is_protocol s "11".data).bind fun udp =>
            (is_protocol s "01".data).bind fun icmp =>
              (pyInt 10 p1).bind fun v1 =>
                (if v1 < (mp : Int) then pyListIncr agg.num_source_sess v1
                 else some agg.num_source_sess).bind fun src =>
                  (pyInt 10 p2).bind fun v2 =>
                    (if v2 < (mp : Int) then pyListIncr agg.num_destination_sess v2
                     else some agg.num_destination_sess).bind fun dst =>
                      some { num_source_sess := src
                             num_destination_sess := dst
                             num_sessions := agg.num_sessions + 1
                             num_external := agg.num_external +
                               (if is_external a1 a2 then 1 else 0)
                             num_tcp_sess := agg.num_tcp_sess + (if tcp then 1 else 0)
                             num_udp_sess := agg.num_udp_sess + (if udp then 1 else 0)
                             num_icmp_sess := agg.num_icmp_sess + (if icmp then 1 else 0)
                             other_ips := if p2v then bump agg.other_ips a2
                               else agg.other_ips } := rfl

theorem featDstBlock_eq (agg : Agg) (a1 : PyStr) :
    featDstBlock agg a1 =
      (is_private a1).bind fun p1v =>
        some (if p1v then { agg with other_ips := bump agg.other_ips a1 } else agg) := rfl

theorem featStep_eq (cs : PyVal) (mp : Nat) (agg : Agg) (e : SessionKey × Session) :
    featStep cs mp agg e =
      (unpack2 (splitColon e.1.1)).bind fun ap1 =>
        (unpack2 (splitColon e.1.2)).bind fun ap2 =>
          (firstPacketHex e.2).bind fun first_packet =>
            (if macEq (extract_macs first_packet).1 cs then
               featSrcBlock mp agg ap1.1 ap1.2 ap2.1 ap2.2 e.2
             else some agg).bind fun agg1 =>
              if macEq (extract_macs first_packet).2 cs then featDstBlock agg1 ap1.1
              else some agg1 := rfl

theorem featDstBlock_src {agg : Agg} {a1 : PyStr} {agg2 : Agg}
    (h : featDstBlock agg a1 = some agg2) :
    agg2.num_source_sess = agg.num_source_sess := by
  rw [featDstBlock_eq] at h
  cases hp : is_private a1 with
  | none => rw [hp] at h; simp at h
  | some b =>
    rw [hp, Option.some_bind] at h
    injection h with h2
    rw [← h2]
    cases b <;> rfl

theorem featSrcBlock_sum {mp : Nat} {agg : Agg} {a1 p1 a2 p2 : PyStr} {s : Session}
    {agg2 : Agg} (h : featSrcBlock mp agg a1 p1 a2 p2 s = some agg2) :
    agg2.num_source_sess.sum = agg.num_source_sess.sum +
      (match pyInt 10 p1 with
       | some v => if v < (mp : Int) then 1 else 0
       | none => 0) := by
  rw [featSrcBlock_eq] at h
  cases hp2 : is_private a2 with
  | none => rw [hp2] at h; simp at h
  | some p2v =>
    rw [hp2, Option.some_bind] at h
    cases ht : is_protocol s "06".data with
    | none => rw [ht] at h; simp at h
    | some tcp =>
      rw [ht, Option.some_bind] at h
      cases hu : is_protocol s "11".data with
      | none => rw [hu] at h; simp at h
      | some udp =>
        rw [hu, Option.some_bind] at h
        cases hi : is_protocol s "01".data with
        | none => rw [hi] at h; simp at h
        | some icmp =>
          rw [hi, Option.some_bind] at h
          cases hv1 : pyInt 10 p1 with
          | none => rw [hv1] at h; simp at h
          | some v1 =>
            rw [hv1, Option.some_bind] at h
            by_cases hlt : v1 < (mp : Int)
            · rw [if_pos hlt] at h
              cases hincr : pyListIncr agg.num_source_sess v1 with
              | none => rw [hincr] at h; simp at h
              | some src2 =>
                rw [hincr, Option.some_bind] at h
                cases hv2 : pyInt 10 p2 with
                | none => rw [hv2] at h; simp at h
                | some v2 =>
                  rw [hv2, Option.some_bind] at h
                  have hsrc : agg2.num_source_sess = src2 := by
                    by_cases hlt2 : v2 < (mp : Int)
                    · rw [if_pos hlt2] at h
                      cases hincr2 : pyListIncr agg.num_destination_sess v2 with
                      | none => rw [hincr2] at h; simp at h
                      | some dst2 =>
                        rw [hincr2, Option.some_bind] at h
                        injection h with h2
                        rw [← h2]
                    · rw [if_neg hlt2, Option.some_bind] at h
                      injection h with h2
                      rw [← h2]
                  rw [hsrc, pyListIncr_sum hincr]
                  show agg.num_source_sess.sum + 1 =
                    agg.num_source_sess.sum + (if v1 < (mp : Int) then 1 else 0)
                  rw [if_pos hlt]
            · rw [if_neg hlt, Option.some_bind] at h
              cases hv2 : pyInt 10 p2 with
              | none => rw [hv2] at h; simp at h
              | some v2 =>
                rw [hv2, Option.some_bind] at h
                have hsrc : agg2.num_source_sess = agg.num_source_sess := by
                  by_cases hlt2 : v2 < (mp : Int)
                  · rw [if_pos hlt2] at h
                    cases hincr2 : pyListIncr agg.num_destination_sess v2 with
                    | none => rw [hincr2] at h; simp at h
                    | some dst2 =>
                      rw [hincr2, Option.some_bind] at h
                      injection h with h2
                      rw [← h2]
                  · rw [if_neg hlt2, Option.some_bind] at h
                    injection h with h2
                    rw [← h2]
                rw [hsrc]
                show agg.num_source_sess.sum =
                  agg.num_source_sess.sum + (if v1 < (mp : Int) then 1 else 0)
                rw [if_neg hlt]
                omega

theorem featStep_sum {cs : PyVal} {mp : Nat} {agg : Agg} {e : SessionKey × Session}
    {agg2 : Agg} (h : featStep cs mp agg e = some agg2) :
    agg2.num_source_sess.sum = agg.num_source_sess.sum +
      (if srcCounted cs mp e then 1 else 0) := by
  rw [featStep_eq] at h
  unfold srcCounted
  cases hap1 : unpack2 (splitColon e.1.1) with
  | none => rw [hap1] at h; simp at h
  | some ap1 =>
    rw [hap1, Option.some_bind] at h
    cases hap2 : unpack2 (splitColon e.1.2) with
    | none => rw [hap2] at h; simp at h
    | some ap2 =>
      rw [hap2, Option.some_bind] at h
      cases hfp : firstPacketHex e.2 with
      | none => rw [hfp] at h; simp at h
      | some fp =>
        rw [hfp, Option.some_bind] at h
        simp only [Option.map_some', Option.getD_some]
        by_cases hm : macEq (extract_macs fp).1 cs = true
        · rw [if_pos hm] at h
          cases hsb : featSrcBlock mp agg ap1.1 ap1.2 ap2.1 ap2.2 e.2 with
          | none => rw [hsb] at h; simp at h
          | some agg1 =>
            rw [hsb, Option.some_bind] at h
            have hpres : agg2.num_source_sess = agg1.num_source_sess := by
              by_cases hd : macEq (extract_macs fp).2 cs = true
              · rw [if_pos hd] at h
                exact featDstBlock_src h
              · rw [if_neg hd] at h
                injection h with h2
                rw [← h2]
            rw [hpres, featSrcBlock_sum hsb]
            simp only [hm, Bool.true_and]
            cases hv : pyInt 10 ap1.2 with
            | none => simp
            | some v =>
              simp only [Option.map_some', Option.getD_some]
              by_cases hvm : v < (mp : Int)
              · rw [if_pos hvm, if_pos (by simp [hvm])]
              · rw [if_neg hvm, if_neg (by simp [hvm])]
        · rw [if_neg hm] at h
          rw [Option.some_bind] at h
          have hpres : agg2.num_source_sess = agg.num_source_sess := by
            by_cases hd : macEq (extract_macs fp).2 cs = true
            · rw [if_pos hd] at h
              exact featDstBlock_src h
            · rw [if_neg hd] at h
              injection h with h2
              rw [← h2]
          have hmf : macEq (extract_macs fp).1 cs = false := by
            cases hmm : macEq (extract_macs fp).1 cs
            · rfl
            · exact absurd hmm hm
          rw [hpres]
          simp only [hmf, Bool.false_and]
          simp

theorem aggregate_sum {cs : PyVal} {mp : Nat} :
    ∀ {sd : SessionDict} {agg0 agg : Agg}, aggregate cs mp sd agg0 = some agg →
      agg.num_source_sess.sum =
        agg0.num_source_sess.sum + (sd.filter (srcCounted cs mp)).length := by
  intro sd
  induction sd with
  | nil =>
    intro agg0 agg h
    injection h with h2
    rw [← h2]
    simp
  | cons e rest ih =>
    intro agg0 agg h
    have h2 : (featStep cs mp agg0 e).bind (fun a => aggregate cs mp rest a) = some agg := h
    cases hstep : featStep cs mp agg0 e with
    | none => rw [hstep] at h2; simp at h2
    | some a1 =>
      rw [hstep, Option.some_bind] at h2
      rw [ih h2, featStep_sum hstep]
      by_cases hp : srcCounted cs mp e = true
      · simp [List.filter_cons, hp] <;> omega
      · simp [List.filter_cons, hp] <;> omega

/-- C5: for every session mapping, resolved capture source and `max_port`,
when the `extract_features` loop completes, the sum of the unnormalized
source-port histogram equals the number of sessions whose first-packet
source MAC matches the capture source and whose source port parses below
`max_port` — sessions with ports at or above `max_port` get no bin. -/
theorem source_hist_sum (sd : SessionDict) (cso : Option PyStr) (mp : Nat)
    (cs : PyVal) (agg : Agg)
    (hcs : resolveSource sd cso = some cs)
    (hagg : aggregate cs mp sd (initAgg mp) = some agg) :
    agg.num_source_sess.sum = (sd.filter (srcCounted cs mp)).length := by
  rw [aggregate_sum hagg]
  have h0 : (initAgg mp).num_source_sess.sum = 0 := by
    simp [initAgg]
  rw [h0, Nat.zero_add]

theorem source_hist_sum_witness :
    c2agg.num_source_sess.sum =
      (c2sessions.filter (srcCounted (PyVal.str c2mac) 1024)).length :=
  source_hist_sum c2sessions none 1024 (PyVal.str c2mac) c2agg (by rfl) (by rfl)
